import Mathlib

/-!
Verification of the word-fill sentence-generation core (server router:
`generateSentenceForWord`, `createPrompt`, `callDeepSeekAPI`, `extractSentence`,
`generateFallbackSentence`, `generateBatch`).

The JavaScript string values are modelled as `List Char` (one entry per UTF-16
code unit of the ASCII/BMP strings involved), wrapped into `String` at the API
level.  JavaScript `Math.random()` draws are modelled as explicit natural-number
indices (reduced modulo the pool size, exactly the range `Math.floor(rand*n)`
produces).  The network is modelled as an explicit outcome value handed to
`callDeepSeekAPI`; exceptions are modelled as `Except` values.  The
case-insensitive whole-word regex `\b<word>\b` built by `extractSentence` is
modelled for target words made of JavaScript word characters (`[A-Za-z0-9_]`),
on which the (mis)escaping of the source is the identity; theorems about the
matcher carry that hypothesis.
-/

namespace WordFill

/-- JavaScript whitespace as used by `trim()` and `\s` (common code units). -/
def isWS (c : Char) : Bool :=
  c = ' ' || c = '\t' || c = '\n' || c = '\r' || c = '\x0b' || c = '\x0c'

/-- JavaScript word character, the `\w` / `\b` character set `[A-Za-z0-9_]`. -/
def isWordChar (c : Char) : Bool :=
  ('a' ≤ c && c ≤ 'z') || ('A' ≤ c && c ≤ 'Z') || ('0' ≤ c && c ≤ '9') || c = '_'

/-- ASCII lower-casing of one code unit; this is also exactly the
case-insensitive canonicalization a non-`/u` regex applies to an ASCII word
character (the ASCII barrier of ECMA-262 Canonicalize prevents any non-ASCII
input code unit from matching an ASCII pattern character). -/
def jsToLower (c : Char) : Char :=
  if 'A' ≤ c && c ≤ 'Z' then Char.ofNat (c.toNat + 32) else c

/-- One code unit of `String.prototype.toLowerCase()`: ASCII letters map to
their lower case; the two BMP code points whose lowercase crosses into ASCII
are mapped faithfully (U+212A KELVIN SIGN → `k`, and U+0130 LATIN CAPITAL
LETTER I WITH DOT ABOVE → `i` followed by U+0307, the one unconditional
multi-character lowercase mapping).  Other non-ASCII code units are kept as
they are: their real lowercase forms stay non-ASCII, and a non-ASCII code
unit can neither be a word character nor match an ASCII pattern character,
so this cannot affect the matching of word-character targets. -/
def jsLowerChar (c : Char) : List Char :=
  if c = '\u212A' then ['k']
  else if c = '\u0130' then ['i', '\u0307']
  else [jsToLower c]

/-- Model of `sentence.toLowerCase()`. -/
def jsStrToLower (s : List Char) : List Char :=
  (s.map jsLowerChar).flatten

/-- No code unit of the string lowercases across the ASCII canonicalization
barrier (no U+212A, no U+0130); on such strings — all ASCII text in
particular — the case-insensitive test on the lowercased copy agrees with a
match on the original. -/
def lowerSafe (s : List Char) : Bool :=
  s.all (fun c => !(c = '\u212A' || c = '\u0130'))

/-- Leading-whitespace removal, the left half of `String.prototype.trim`. -/
def dropLeadingWS : List Char → List Char
  | [] => []
  | c :: r => if isWS c then dropLeadingWS r else c :: r

/-- Trailing-whitespace removal, the right half of `String.prototype.trim`. -/
def trimRight : List Char → List Char
  | [] => []
  | c :: r =>
    match trimRight r with
    | [] => if isWS c then [] else [c]
    | x :: t => c :: x :: t

/-- Model of `String.prototype.trim()`. -/
def jsTrim (s : List Char) : List Char := trimRight (dropLeadingWS s)

/-- Last code unit of a string, if any. -/
def lastChar? : List Char → Option Char
  | [] => none
  | [c] => some c
  | _ :: c :: r => lastChar? (c :: r)

/-- Model of `slice(0, -1)`: drop the final code unit. -/
def dropLastChar : List Char → List Char
  | [] => []
  | [_] => []
  | c :: d :: r => c :: dropLastChar (d :: r)

/-- Does the needle occur at the very start of the haystack? -/
def leadsWith : List Char → List Char → Bool
  | [], _ => true
  | _ :: _, [] => false
  | a :: n, b :: h => a = b && leadsWith n h

/-- Model of `String.prototype.includes(needle)`: substring occurrence. -/
def hasSubstr (needle : List Char) : List Char → Bool
  | [] => needle.isEmpty
  | c :: r => leadsWith needle (c :: r) || hasSubstr needle r

/-- The blank marker `"___"` of the practice sentences. -/
def marker : List Char := ['_', '_', '_']

/-- Model of `sentence.includes('___')`. -/
def containsMarker (s : List Char) : Bool := hasSubstr marker s

/-- Number of non-overlapping occurrences of the blank marker `"___"`,
scanning left to right (the count a reader of the sentence sees). -/
def countMarker : List Char → Nat
  | [] => 0
  | '_' :: '_' :: '_' :: r => countMarker r + 1
  | _ :: r => countMarker r

/-- Does the string end in `.`, `!` or `?` — the test `/[.!?]$/`. -/
def endsPunct (s : List Char) : Bool :=
  match lastChar? s with
  | some c => c = '.' || c = '!' || c = '?'
  | none => false

/-- Collapse every whitespace run to a single space: `replace(/\s+/g, ' ')`. -/
def collapseWS : List Char → List Char
  | [] => []
  | [c] => [if isWS c then ' ' else c]
  | a :: b :: r =>
    if isWS a && isWS b then collapseWS (b :: r)
    else (if isWS a then ' ' else a) :: collapseWS (b :: r)

theorem countMarker_nil : countMarker [] = 0 := rfl

theorem countMarker_cons3 (r : List Char) :
    countMarker ('_' :: '_' :: '_' :: r) = countMarker r + 1 := rfl

theorem leadsWith_pair (x y : Char) (r : List Char) :
    leadsWith [x, y] r = true ↔ ∃ t, r = x :: y :: t := by
  rcases r with _ | ⟨b, _ | ⟨d, t⟩⟩ <;> simp [leadsWith]
  constructor
  · rintro ⟨h1, h2⟩; exact ⟨h1.symm, h2.symm⟩
  · rintro ⟨h1, h2⟩; exact ⟨h1.symm, h2.symm⟩

theorem countMarker_cons_of (c : Char) (r : List Char)
    (h : ¬(c = '_' ∧ leadsWith ['_', '_'] r = true)) :
    countMarker (c :: r) = countMarker r := by
  rw [countMarker.eq_def]
  split
  · rename_i heq; cases heq
  · rename_i heq; injection heq with h1 h2; subst h1
    exfalso; apply h
    refine ⟨rfl, ?_⟩
    subst h2; simp [leadsWith]
  · rename_i hne heq; injection heq with h1 h2; subst h1; subst h2; rfl

theorem countMarker_fire (c : Char) (r : List Char)
    (hc : c = '_') (hr : leadsWith ['_', '_'] r = true) :
    countMarker (c :: r) = countMarker (r.drop 2) + 1 := by
  obtain ⟨t, rfl⟩ := (leadsWith_pair _ _ _).mp hr
  subst hc
  simp [countMarker_cons3]

theorem leadsWith_one (x : Char) (r : List Char) :
    leadsWith [x] r = true ↔ ∃ t, r = x :: t := by
  rcases r with _ | ⟨b, t⟩ <;> simp [leadsWith]
  exact eq_comm

theorem leadsWith_append (n s t : List Char) (h : leadsWith n s = true) :
    leadsWith n (s ++ t) = true := by
  induction n generalizing s with
  | nil => simp [leadsWith]
  | cons a n ih =>
    rcases s with _ | ⟨b, s'⟩
    · exact absurd h (by simp [leadsWith])
    · simp only [leadsWith, Bool.and_eq_true] at h ⊢
      exact ⟨h.1, ih s' h.2⟩

theorem hasSubstr_nil_needle (s : List Char) : hasSubstr [] s = true := by
  cases s <;> simp [hasSubstr, leadsWith, List.isEmpty]

theorem hasSubstr_append_right (n x y : List Char) (h : hasSubstr n y = true) :
    hasSubstr n (x ++ y) = true := by
  induction x with
  | nil => exact h
  | cons c r ih =>
    simp only [List.cons_append, hasSubstr, Bool.or_eq_true]
    exact Or.inr ih

theorem hasSubstr_append_left (n x y : List Char) (h : hasSubstr n x = true) :
    hasSubstr n (x ++ y) = true := by
  induction x with
  | nil =>
    simp only [hasSubstr, List.isEmpty_iff] at h
    subst h
    exact hasSubstr_nil_needle _
  | cons c r ih =>
    simp only [hasSubstr, Bool.or_eq_true] at h
    simp only [List.cons_append, hasSubstr, Bool.or_eq_true]
    rcases h with h | h
    · exact Or.inl (leadsWith_append _ _ _ h)
    · exact Or.inr (ih h)

theorem containsMarker_iff_count (s : List Char) :
    containsMarker s = true ↔ 1 ≤ countMarker s := by
  induction s with
  | nil => simp [containsMarker, hasSubstr, marker, List.isEmpty, countMarker_nil]
  | cons c r ih =>
    by_cases hf : c = '_' ∧ leadsWith ['_', '_'] r = true
    · rw [countMarker_fire c r hf.1 hf.2]
      constructor
      · omega
      · intro _
        simp only [containsMarker, hasSubstr, Bool.or_eq_true]
        refine Or.inl ?_
        obtain rfl := hf.1
        simp only [marker, leadsWith, Bool.and_eq_true]
        exact ⟨by simp, hf.2⟩
    · rw [countMarker_cons_of c r hf]
      have hlead : leadsWith marker (c :: r) = false := by
        by_contra hx
        rw [Bool.not_eq_false] at hx
        simp only [marker, leadsWith, Bool.and_eq_true, decide_eq_true_eq] at hx
        exact hf ⟨hx.1.symm, hx.2⟩
      simp only [containsMarker, hasSubstr, hlead, Bool.false_or] at ih ⊢
      exact ih

theorem countMarker_eq_zero (s : List Char) :
    countMarker s = 0 ↔ containsMarker s = false := by
  have h := containsMarker_iff_count s
  constructor
  · intro h0
    by_contra hx
    rw [Bool.not_eq_false] at hx
    have := h.mp hx
    omega
  · intro hx
    by_contra h0
    have h1 : 1 ≤ countMarker s := by omega
    rw [← h] at h1
    rw [h1] at hx
    cases hx

theorem lastChar?_cons (c : Char) (r : List Char) (h : r ≠ []) :
    lastChar? (c :: r) = lastChar? r := by
  cases r with
  | nil => exact absurd rfl h
  | cons d t => rfl

theorem count_append_head : ∀ (u v : List Char), v.head? ≠ some '_' →
    countMarker (u ++ v) = countMarker u + countMarker v
  | [], v, _ => by simp [countMarker_nil]
  | c :: r, v, hv => by
    by_cases hf : c = '_' ∧ leadsWith ['_', '_'] r = true
    · obtain ⟨t, heq⟩ := (leadsWith_pair _ _ _).mp hf.2
      have hlen : t.length + 2 = r.length := by rw [heq]; simp
      have ih := count_append_head t v hv
      obtain rfl := hf.1
      rw [heq]
      simp only [List.cons_append, countMarker_cons3]
      omega
    · have hlhs : ¬(c = '_' ∧ leadsWith ['_', '_'] (r ++ v) = true) := by
        rintro ⟨rfl, h2⟩
        rcases r with _ | ⟨b, _ | ⟨d, t⟩⟩
        · obtain ⟨t', ht⟩ := (leadsWith_pair _ _ _).mp h2
          have hvt : v = '_' :: '_' :: t' := by simpa using ht
          exact hv (by rw [hvt]; rfl)
        · simp only [List.cons_append, List.nil_append, leadsWith,
            Bool.and_eq_true, decide_eq_true_eq] at h2
          obtain ⟨t', ht⟩ := (leadsWith_one _ _).mp h2.2
          have hvt : v = '_' :: t' := by simpa using ht
          exact hv (by rw [hvt]; rfl)
        · simp only [List.cons_append, leadsWith, Bool.and_eq_true,
            decide_eq_true_eq] at h2
          apply hf
          refine ⟨rfl, ?_⟩
          simp only [leadsWith, Bool.and_eq_true, decide_eq_true_eq]
          exact ⟨h2.1, h2.2.1, trivial⟩
      have ih := count_append_head r v hv
      rw [List.cons_append, countMarker_cons_of _ _ hlhs, countMarker_cons_of _ _ hf]
      omega
termination_by u v _ => u.length
decreasing_by
  all_goals simp_wf
  all_goals omega

theorem count_append_marker : ∀ (u : List Char), lastChar? u ≠ some '_' →
    countMarker (u ++ marker) = countMarker u + 1
  | [], _ => by simp [countMarker_nil, marker, countMarker_cons3]
  | c :: r, hl => by
    by_cases hf : c = '_' ∧ leadsWith ['_', '_'] r = true
    · obtain ⟨t, heq⟩ := (leadsWith_pair _ _ _).mp hf.2
      have hlen : t.length + 2 = r.length := by rw [heq]; simp
      have ht : t ≠ [] := by
        rintro rfl
        exact hl (by rw [heq]; rfl)
      have hl' : lastChar? t ≠ some '_' := by
        intro hx
        apply hl
        rw [heq, lastChar?_cons _ _ (by simp), lastChar?_cons _ _ (by simp),
          lastChar?_cons _ _ ht]
        exact hx
      have ih := count_append_marker t hl'
      obtain rfl := hf.1
      rw [heq]
      simp only [List.cons_append, countMarker_cons3]
      omega
    · by_cases hrnil : r = []
      · subst hrnil
        have hc : c ≠ '_' := fun hx => hl (by rw [hx]; rfl)
        show countMarker (c :: marker) = countMarker [c] + 1
        rw [countMarker_cons_of c marker (fun hx => hc hx.1),
          countMarker_cons_of c [] (by simp [leadsWith])]
        rfl
      · have hl' : lastChar? r ≠ some '_' := by
          rw [← lastChar?_cons c _ hrnil]
          exact hl
        have ih := count_append_marker r hl'
        have hlhs : ¬(c = '_' ∧ leadsWith ['_', '_'] (r ++ marker) = true) := by
          rintro ⟨rfl, h2⟩
          rcases r with _ | ⟨b, _ | ⟨d, t⟩⟩
          · exact hrnil rfl
          · simp only [List.cons_append, List.nil_append, marker, leadsWith,
              Bool.and_eq_true, decide_eq_true_eq] at h2
            apply hl
            rw [← h2.1]
            rfl
          · simp only [List.cons_append, leadsWith, Bool.and_eq_true,
              decide_eq_true_eq] at h2
            apply hf
            refine ⟨rfl, ?_⟩
            simp only [leadsWith, Bool.and_eq_true, decide_eq_true_eq]
            exact ⟨h2.1, h2.2.1, trivial⟩
        rw [List.cons_append, countMarker_cons_of _ _ hlhs, countMarker_cons_of _ _ hf]
        omega
termination_by u _ => u.length
decreasing_by
  all_goals simp_wf
  all_goals omega

theorem ws_ne_underscore (c : Char) (h : isWS c = true) : c ≠ '_' := by
  rintro rfl
  exact absurd h (by decide)

theorem count_dropLeadingWS : ∀ (s : List Char),
    countMarker (dropLeadingWS s) = countMarker s
  | [] => rfl
  | x :: r => by
    by_cases hx : isWS x = true
    · have hxne : x ≠ '_' := ws_ne_underscore x hx
      rw [show dropLeadingWS (x :: r) = dropLeadingWS r by simp [dropLeadingWS, hx],
        count_dropLeadingWS r, countMarker_cons_of x r (fun hp => hxne hp.1)]
    · simp [dropLeadingWS, hx]

theorem lastChar?_dropLeadingWS : ∀ (s : List Char) (c : Char),
    lastChar? s = some c → isWS c = false → lastChar? (dropLeadingWS s) = some c
  | [], c, h, _ => by cases h
  | x :: r, c, h, hws => by
    by_cases hx : isWS x = true
    · rcases r with _ | ⟨b, t⟩
      · injection h with h1
        subst h1
        rw [hx] at hws
        cases hws
      · have h' : lastChar? (b :: t) = some c := by
          rw [← lastChar?_cons x _ (by simp)]
          exact h
        have ih := lastChar?_dropLeadingWS (b :: t) c h' hws
        simpa [dropLeadingWS, hx] using ih
    · simpa [dropLeadingWS, hx] using h

theorem trimRight_of_last : ∀ (s : List Char) (c : Char),
    lastChar? s = some c → isWS c = false → trimRight s = s
  | [], c, h, _ => by cases h
  | [x], c, h, hws => by
    injection h with h1
    subst h1
    simp [trimRight, hws]
  | x :: b :: t, c, h, hws => by
    have h' : lastChar? (b :: t) = some c := by
      rw [← lastChar?_cons x _ (by simp)]
      exact h
    have ih := trimRight_of_last (b :: t) c h' hws
    rw [show trimRight (x :: b :: t) =
        (match trimRight (b :: t) with
         | [] => if isWS x then [] else [x]
         | y :: u => x :: y :: u) from rfl]
    rw [ih]

theorem jsTrim_of_last (s : List Char) (c : Char)
    (h : lastChar? s = some c) (hws : isWS c = false) :
    jsTrim s = dropLeadingWS s := by
  unfold jsTrim
  exact trimRight_of_last _ c (lastChar?_dropLeadingWS s c h hws) hws

theorem lastChar?_singleton (c : Char) : lastChar? [c] = some c := rfl

theorem collapse_cons_not_ws (x : Char) (r : List Char) (h : isWS x = false) :
    collapseWS (x :: r) = x :: collapseWS r := by
  cases r with
  | nil => simp [collapseWS, h]
  | cons b t => simp [collapseWS, h]

theorem collapse_ne_nil : ∀ (s : List Char), s ≠ [] → collapseWS s ≠ []
  | [], h => absurd rfl h
  | [c], _ => by simp [collapseWS]
  | a :: b :: r, _ => by
    by_cases hab : (isWS a && isWS b) = true
    · rw [show collapseWS (a :: b :: r) = collapseWS (b :: r) by simp [collapseWS, hab]]
      exact collapse_ne_nil (b :: r) (by simp)
    · simp [collapseWS, hab]

theorem collapse_head? : ∀ (x : Char) (r : List Char),
    (collapseWS (x :: r)).head? = some (if isWS x then ' ' else x)
  | x, [] => by simp [collapseWS]
  | x, b :: t => by
    by_cases hab : (isWS x && isWS b) = true
    · obtain ⟨hx, hb⟩ := Bool.and_eq_true_iff.mp hab
      rw [show collapseWS (x :: b :: t) = collapseWS (b :: t) by simp [collapseWS, hab]]
      rw [collapse_head? b t]
      simp [hx, hb]
    · simp [collapseWS, hab]

theorem collapse_last : ∀ (s : List Char) (c : Char),
    lastChar? s = some c → isWS c = false → lastChar? (collapseWS s) = some c
  | [], c, h, _ => by cases h
  | [x], c, h, hws => by
    injection h with h1
    subst h1
    rw [show collapseWS [x] = [if isWS x then ' ' else x] from rfl, hws]
    simp [lastChar?_singleton]
  | a :: b :: r, c, h, hws => by
    have h' : lastChar? (b :: r) = some c := by
      rw [← lastChar?_cons a _ (by simp)]
      exact h
    have ih := collapse_last (b :: r) c h' hws
    by_cases hab : (isWS a && isWS b) = true
    · rw [show collapseWS (a :: b :: r) = collapseWS (b :: r) by simp [collapseWS, hab]]
      exact ih
    · rw [show collapseWS (a :: b :: r) =
          (if isWS a then ' ' else a) :: collapseWS (b :: r) by simp [collapseWS, hab]]
      rw [lastChar?_cons _ _ (collapse_ne_nil (b :: r) (by simp))]
      exact ih

theorem count_collapse : ∀ (s : List Char), countMarker (collapseWS s) = countMarker s
  | [] => rfl
  | [c] => by
    rw [show collapseWS [c] = [if isWS c then ' ' else c] from rfl]
    rw [countMarker_cons_of _ [] (by simp [leadsWith]),
      countMarker_cons_of _ [] (by simp [leadsWith])]
  | a :: b :: r => by
    by_cases hwa : isWS a = true
    · have hane := ws_ne_underscore a hwa
      have hrhs : countMarker (a :: b :: r) = countMarker (b :: r) :=
        countMarker_cons_of _ _ (fun hp => hane hp.1)
      by_cases hwb : isWS b = true
      · rw [show collapseWS (a :: b :: r) = collapseWS (b :: r) by
          simp [collapseWS, hwa, hwb]]
        rw [count_collapse (b :: r), hrhs]
      · rw [show collapseWS (a :: b :: r) = ' ' :: collapseWS (b :: r) by
          simp [collapseWS, hwa, hwb]]
        rw [countMarker_cons_of _ _ (by rintro ⟨h, _⟩; exact absurd h (by decide))]
        rw [count_collapse (b :: r), hrhs]
    · rw [Bool.not_eq_true] at hwa
      rw [collapse_cons_not_ws a _ hwa]
      by_cases hfa : a = '_' ∧ leadsWith ['_', '_'] (b :: r) = true
      · obtain ⟨t, heq⟩ := (leadsWith_pair _ _ _).mp hfa.2
        injection heq with hb hr
        have hlen : t.length + 1 = r.length := by rw [hr]; simp
        subst hb
        subst hr
        rw [collapse_cons_not_ws '_' _ (by decide), collapse_cons_not_ws '_' _ (by decide)]
        obtain rfl := hfa.1
        rw [countMarker_cons3, countMarker_cons3, count_collapse t]
      · have hlhs : ¬(a = '_' ∧ leadsWith ['_', '_'] (collapseWS (b :: r)) = true) := by
          rintro ⟨rfl, h2⟩
          obtain ⟨t', ht'⟩ := (leadsWith_pair _ _ _).mp h2
          have hhead := collapse_head? b r
          rw [ht'] at hhead
          have hb : b = '_' := by
            split_ifs at hhead with hw
            · exact absurd (Option.some.inj hhead) (by decide)
            · exact (Option.some.inj hhead).symm
          subst hb
          rw [collapse_cons_not_ws '_' r (by decide)] at ht'
          injection ht' with _ hcr
          rcases r with _ | ⟨c2, r2⟩
          · simp [collapseWS] at hcr
          · have hh := collapse_head? c2 r2
            rw [hcr] at hh
            have hc2 : c2 = '_' := by
              split_ifs at hh with hw2
              · exact absurd (Option.some.inj hh) (by decide)
              · exact (Option.some.inj hh).symm
            subst hc2
            exact hfa ⟨rfl, by simp [leadsWith]⟩
        rw [countMarker_cons_of _ _ hlhs, count_collapse (b :: r), countMarker_cons_of _ _ hfa]
termination_by s => s.length
decreasing_by
  all_goals simp_wf
  all_goals omega

/-- Model of `split(' ')`: split on every single space, keeping empty tokens. -/
def splitSpaces : List Char → List (List Char)
  | [] => [[]]
  | c :: r =>
    let ts := splitSpaces r
    if c = ' ' then [] :: ts
    else (c :: ts.headD []) :: ts.tail

/-- Model of `join(' ')`: interleave a single space between tokens. -/
def joinSpaces : List (List Char) → List Char
  | [] => []
  | [t] => t
  | t :: ts => t ++ ' ' :: joinSpaces ts

/-- Model of `words.splice(insertPos, 0, tok)` for an in-range position:
insert `tok` at index `n`. -/
def insertAtIdx (n : Nat) (tok : List Char) (ts : List (List Char)) :
    List (List Char) :=
  ts.take n ++ tok :: ts.drop n

/-- Case-insensitive prefix test (ASCII folding), the leading part of a
match of the literal word at the current scan position. -/
def ciLeads : List Char → List Char → Bool
  | [], _ => true
  | _ :: _, [] => false
  | a :: w, b :: s => (jsToLower b = jsToLower a) && ciLeads w s

/-- A `\b` boundary holds after the match: next char absent or not a word
character. -/
def nextCharOk (s : List Char) : Bool :=
  match s.head? with
  | none => true
  | some c => !isWordChar c

/-- The case-insensitive whole-word matcher
`new RegExp('\\b' + word + '\\b', 'i')` of `extractSentence`, applied to a
given text, for a target word made of word characters: scan left to right,
and at the first position where the word matches case-insensitively between
`\b` boundaries, replace it with the marker.  `prevIsWord` records whether
the character before the scan position is a word character (`false` at the
start of the string).  `isSome` of the result is `pattern.test` on that
text; the `some` value is `text.replace(pattern, '___')`. -/
def replaceWordOnce (w : List Char) : Bool → List Char → Option (List Char)
  | _, [] => none
  | prevIsWord, c :: r =>
    if !prevIsWord && ciLeads w (c :: r) && nextCharOk ((c :: r).drop w.length) then
      some ('_' :: '_' :: '_' :: (c :: r).drop w.length)
    else
      (replaceWordOnce w (isWordChar c) r).map (fun t => c :: t)

/-- Strip one layer of matching double or single quotes:
`(startsWith('"') && endsWith('"')) || (startsWith("'") && endsWith("'"))`
followed by `slice(1, -1)`. -/
def stripQuotes (s : List Char) : List Char :=
  if (s.head? = some '"' ∧ lastChar? s = some '"') ∨
     (s.head? = some '\'' ∧ lastChar? s = some '\'') then
    dropLastChar (s.drop 1)
  else s

/-- The marker-ensuring block of `extractSentence`: when the text does not
already contain `'___'`, the source computes
`sentenceLower = sentence.toLowerCase()` and gates on
`pattern.test(sentenceLower)` — but then performs
`sentence.replace(pattern, '___')` on the original.  Both the test and the
replacement use the same case-insensitive matcher; they are applied to
different strings, so when only the lowercased copy matches (its lowercasing
crossed the ASCII barrier) the replace is a no-op and the text is kept
marker-less.  If the test fails, the text is split into space-separated
tokens and the marker inserted as a new token at `floor(tokenCount/2)` when
more than 3 tokens exist, otherwise the final character is replaced by
`" ___."` (`${sentence.slice(0,-1)} ___.`). -/
def ensureMarker (s1 word : List Char) : List Char :=
  if containsMarker s1 = true then s1
  else
    if (replaceWordOnce word false (jsStrToLower s1)).isSome = true then
      match replaceWordOnce word false s1 with
      | some replaced => replaced
      | none => s1
    else
      let toks := splitSpaces s1
      if toks.length > 3 then
        joinSpaces (insertAtIdx (toks.length / 2) marker toks)
      else dropLastChar s1 ++ (' ' :: '_' :: '_' :: '_' :: '.' :: [])

/-- The punctuation-ensuring block of `extractSentence`: append `'.'` unless
the text already ends in `.`, `!` or `?`. -/
def ensurePunct (s2 : List Char) : List Char :=
  if endsPunct s2 = true then s2 else s2 ++ ['.']

/-- Model of `extractSentence(response, word)` on code-unit lists: trim,
strip quotes, ensure a blank marker, ensure terminal punctuation, collapse
whitespace runs and trim. -/
def extractSentenceL (response word : List Char) : List Char :=
  jsTrim (collapseWS (ensurePunct (ensureMarker (stripQuotes (jsTrim response)) word)))

/-- String-level `extractSentence`. -/
def extractSentence (response word : String) : String :=
  String.mk (extractSentenceL response.data word.data)

/-- The characters the source's mangled escape pattern
`/[.*+?^${}()|[\\]\\\\]/g` accepts as its leading character class
(`.` `*` `+` `?` `^` `$` `\x7b` `\x7d` `(` `)` `|` `[` `\`). -/
def escClassChar (c : Char) : Bool :=
  c = '.' || c = '*' || c = '+' || c = '?' || c = '^' || c = '$' ||
  c = '\x7b' || c = '\x7d' || c = '(' || c = ')' || c = '|' || c = '[' || c = '\\'

/-- Model of `word.replace(/[.*+?^${}()|[\\]\\\\]/g, '\\$&')` as written in
the source.  The character class of that regex literal is terminated by the
`]` that follows the escaped backslash, so the pattern matches a class
character followed by the three literal characters `\`, `\`, `]`, and the
replacement prefixes a backslash to that 4-character match.  Global replace:
scan left to right, no overlap. -/
def escapeWordForRegex : List Char → List Char
  | c1 :: '\\' :: '\\' :: ']' :: rest =>
    if escClassChar c1 then
      '\\' :: c1 :: '\\' :: '\\' :: ']' :: escapeWordForRegex rest
    else c1 :: escapeWordForRegex ('\\' :: '\\' :: ']' :: rest)
  | c :: rest => c :: escapeWordForRegex rest
  | [] => []

/-- Modelled from the spec: "the word is escaped for use in a pattern so
special characters cannot corrupt matching" — the canonical escape that
prefixes every regex metacharacter with a backslash, for comparison with
`escapeWordForRegex`. -/
def properEscapeForRegex (s : List Char) : List Char :=
  s.foldr (fun c acc => if escClassChar c || c = ']' then '\\' :: c :: acc else c :: acc) []

/-- The result record returned by `generateSentenceForWord` (interface
`SentenceResult`); `error` is the optional error field. -/
structure SentenceResult where
  success : Bool
  word : String
  sentence : String
  difficulty : String
  fallback : Bool
  error : Option String
deriving DecidableEq

/-- The outcome of the single `fetch` to the generation endpoint, as seen by
`callDeepSeekAPI`: the transport may throw an `Error` with some message, may
throw a non-`Error` value, or may deliver a response with an HTTP status, a
(best-effort JSON-stringified) error body, and an optional list of choice
message contents. -/
inductive NetOutcome where
  | throwErr (msg : String)
  | throwNonErr
  | resp (status : Nat) (errorBody : String) (choices : Option (List String))
deriving DecidableEq

/-- Model of `callDeepSeekAPI(prompt)`.  The configured credential and the
network outcome are explicit parameters; request construction (headers, model
name, bounded `max_tokens`, randomized temperature, `stream:false`) does not
influence the modelled control flow and is not represented.  A thrown
exception is modelled as `Except.error` carrying the `Error` message (the
source rethrows `Error` instances unchanged and wraps anything else in
`new Error('API 調用異常')`).  `response.ok` is `200 ≤ status ≤ 299`. -/
def callDeepSeekAPI (apiKey : String) (prompt : String) (outcome : NetOutcome) :
    Except String String :=
  if apiKey = "" then Except.error "DEEPSEEK_API_KEY is not configured"
  else
    match outcome with
    | NetOutcome.throwErr msg => Except.error msg
    | NetOutcome.throwNonErr => Except.error "API 調用異常"
    | NetOutcome.resp status errorBody choices =>
      if ¬(200 ≤ status ∧ status ≤ 299) then
        if status = 401 then Except.error "API Key 無效/過期"
        else if status = 403 then Except.error "API 權限不足"
        else if status = 429 then Except.error "API 調用頻率超限"
        else if status = 500 then Except.error "DeepSeek API 服務器內部錯誤"
        else Except.error ("HTTP " ++ toString status ++ ": " ++ errorBody)
      else
        match choices with
        | none => Except.error "API 響應無有效內容"
        | some [] => Except.error "API 響應無有效內容"
        | some (c :: _) => Except.ok (String.mk (jsTrim c.data))

/-- The seven style descriptors of `createPrompt`. -/
def styles : List String :=
  ["日常對話風格", "商務場景風格", "學術描述風格", "生活故事風格",
   "新聞報道風格", "科普說明風格", "廣告宣傳風格"]

/-- The eight context descriptors of `createPrompt`. -/
def contexts : List String :=
  ["在購物場景中", "在辦公室環境中", "在學校場景裡", "在家庭環境中",
   "在社交聚會中", "在旅行過程中", "在運動場景中", "在用餐時間"]

/-- What a JavaScript property read on the object literal
`difficultyInstructions` can produce: one of its own string entries, a
truthy member inherited from `Object.prototype` (a function such as
`toString`, or the prototype object itself for `__proto__`), or
`undefined`. -/
inductive PropLookup where
  | ownString (s : String)
  | inherited
  | absent
deriving DecidableEq

/-- The property names an object literal inherits from `Object.prototype`
(ECMA-262 §20.1.3 together with the Annex B legacy accessors); every one of
them holds a truthy value, so `difficultyInstructions[name]` does not fall
through a `||`. -/
def objectPrototypeProps : List String :=
  ["constructor", "hasOwnProperty", "isPrototypeOf", "propertyIsEnumerable",
   "toLocaleString", "toString", "valueOf", "__defineGetter__",
   "__defineSetter__", "__lookupGetter__", "__lookupSetter__", "__proto__"]

/-- The lookup `difficultyInstructions[difficulty]` of `createPrompt`: own
keys `easy`, `medium`, `hard` hold the instruction strings; any other key
walks the prototype chain, finding the truthy inherited `Object.prototype`
member for its property names and `undefined` otherwise. -/
def difficultyInstructions (difficulty : String) : PropLookup :=
  if difficulty = "easy" then
    PropLookup.ownString "使用簡單的日常詞彙和基礎句型，句子結構簡單明了"
  else if difficulty = "medium" then
    PropLookup.ownString "使用中等難度的詞彙和常見句型，句子邏輯清晰"
  else if difficulty = "hard" then
    PropLookup.ownString "使用較複雜的詞彙和多樣句型（如從句、倒裝等），語境豐富"
  else if difficulty ∈ objectPrototypeProps then PropLookup.inherited
  else PropLookup.absent

/-- Model of `createPrompt(word, difficulty)`.  The three `Math.random()`
draws (style, context, creative variation) are explicit indices, reduced
modulo the pool sizes exactly as `Math.floor(rand * length)` ranges over
them.  `instruction` is
`difficultyInstructions[difficulty] || difficultyInstructions.medium`: own
entries are non-empty strings (truthy) and are used as they are; an
inherited `Object.prototype` member is truthy too, so the `||` does not
fall back and the template literal interpolates its implementation-defined
string rendering, supplied by `protoRender` (ECMA-262 leaves the rendering
of built-in functions implementation-defined, e.g. V8 prints
`function toString() \x7b [native code] \x7d`); only `undefined` — a key
that is neither own nor inherited — falls back to the medium instruction. -/
def createPrompt (word difficulty : String)
    (styleIdx contextIdx variationIdx : Nat)
    (protoRender : String → String) : String :=
  let selectedStyle := styles.getD (styleIdx % 7) ""
  let selectedContext := contexts.getD (contextIdx % 8) ""
  let instruction :=
    match difficultyInstructions difficulty with
    | PropLookup.ownString s => s
    | PropLookup.inherited => protoRender difficulty
    | PropLookup.absent => "使用中等難度的詞彙和常見句型，句子邏輯清晰"
  let variations : List String :=
    ["使用" ++ selectedStyle ++ "，" ++ selectedContext,
     "避免使用常見的句子結構，要有創意",
     "使用不同的語法結構，如被動語態或條件句",
     "包含時間、地點或人物元素，讓句子更生動",
     "體現單字在不同語境下的核心用法"]
  let extraInstruction := variations.getD (variationIdx % 5) ""
  "\n請為英語單詞 \"" ++ word ++ "\" 生成一個獨特的填空練習句子。\n\n核心要求：\n1. 句子自然流暢，符合英語語法和表達習慣\n2. 準確體現單詞的核心含義和常用用法\n3. " ++ instruction ++ "\n4. 句子長度控制在 15-25 詞之間\n5. 必須用 \"___\" 作為填空位置（僅一處填空），且填空處只能填入目標單詞\n6. 避免使用過於生僻的詞彙，確保練習實用性\n\n創意要求：\n7. " ++ extraInstruction ++ "\n\n重要：請發揮創造力，生成與常見模板不同的獨特句子，避免重複相似句式。\n無需額外解釋，僅返回句子本身。\n\n單詞: " ++ word ++ "\n句子:"

/-- The eight fallback templates of `generateFallbackSentence`. -/
def fallbackTemplates : List String :=
  ["We need to ___ carefully before making a decision.",
   "She said that ___ is essential for personal growth.",
   "In daily life, people often ___ to express their feelings.",
   "The teacher told us that ___ can help improve our skills.",
   "When facing challenges, we should ___ with courage.",
   "He spent a lot of time learning how to ___ properly.",
   "This experience taught me the importance of ___.",
   "Many people believe that ___ brings happiness and success."]

/-- Model of `generateFallbackSentence(word)`: uniform random pick
`templates[Math.floor(Math.random() * 8)]`, with the draw as an explicit
index reduced modulo 8.  The word is ignored by the source as well. -/
def generateFallbackSentence (word : String) (idx : Nat) : String :=
  fallbackTemplates.getD (idx % 8) ""

/-- The per-call environment of one `generateSentenceForWord` invocation:
configured credential, the outcome of the (potential) network call, the
`Math.random()` draws consumed by prompt building and fallback selection,
and the engine's implementation-defined rendering of inherited
`Object.prototype` members (consumed by `createPrompt` only when the
difficulty names one). -/
structure GenEnv where
  apiKey : String
  netOutcome : NetOutcome
  styleIdx : Nat
  contextIdx : Nat
  variationIdx : Nat
  fallbackIdx : Nat
  protoRender : String → String

/-- Model of `generateSentenceForWord(word, difficulty)` together with an
instrumentation flag recording whether `callDeepSeekAPI` was invoked.  The
empty-word guard `!word || word.length < 1` is `word = ""`; the `try/catch`
around the generation chain is the `Except` match: an `Except.error` is the
caught exception, whose message becomes the `error` field
(`error instanceof Error ? error.message : 'Unknown error'`; every throw
site in the chain throws an `Error`, so the message branch applies). -/
def generateSentenceRun (word : String) (difficulty : String) (env : GenEnv) :
    SentenceResult × Bool :=
  if word = "" then
    ({ success := false
       error := some "單字長度不能少於 1 個字符"
       word := word
       difficulty := difficulty
       fallback := true
       sentence := generateFallbackSentence word env.fallbackIdx }, false)
  else
    let prompt := createPrompt word difficulty env.styleIdx env.contextIdx
      env.variationIdx env.protoRender
    match callDeepSeekAPI env.apiKey prompt env.netOutcome with
    | Except.ok response =>
      ({ success := true
         word := word
         sentence := extractSentence response word
         difficulty := difficulty
         fallback := false
         error := none }, true)
    | Except.error msg =>
      ({ success := false
         word := word
         sentence := generateFallbackSentence word env.fallbackIdx
         difficulty := difficulty
         fallback := true
         error := some msg }, true)

/-- The `SentenceResult` returned to the caller of `generateSentenceForWord`. -/
def generateSentenceForWord (word : String) (difficulty : String) (env : GenEnv) :
    SentenceResult :=
  (generateSentenceRun word difficulty env).1

/-- The record returned by the `generateBatch` mutation. -/
structure BatchResult where
  success : Bool
  results : List SentenceResult
deriving DecidableEq

/-- Model of the `generateBatch` mutation body:
`Promise.all(words.map(word => generateSentenceForWord(word, difficulty)))`
then `{ success: true, results }`.  Each concurrent task consumes its own
randomness and network outcome, modelled by indexing the environment by the
task's position; `Promise.all` preserves input order. -/
def generateBatch (words : List String) (difficulty : String)
    (envs : Nat → GenEnv) : BatchResult :=
  { success := true
    results := words.mapIdx (fun i w => generateSentenceForWord w difficulty (envs i)) }

theorem ciLeads_length : ∀ (w s : List Char), ciLeads w s = true → w.length ≤ s.length
  | [], s, _ => by simp
  | a :: w, [], h => by cases h
  | a :: w, b :: s, h => by
    simp only [ciLeads, Bool.and_eq_true] at h
    have := ciLeads_length w s h.2
    simp only [List.length_cons]
    omega

theorem replaceWordOnce_spec : ∀ (w : List Char) (prev : Bool) (s out : List Char),
    replaceWordOnce w prev s = some out →
    ∃ pre mid post, s = pre ++ mid ++ post ∧ mid.length = w.length ∧
      out = pre ++ marker ++ post ∧
      (pre = [] → prev = false) ∧
      (∀ c, lastChar? pre = some c → isWordChar c = false) ∧
      (∀ c, post.head? = some c → isWordChar c = false)
  | w, prev, [], out, h => by cases h
  | w, prev, c :: r, out, h => by
    rw [show replaceWordOnce w prev (c :: r) =
        (if !prev && ciLeads w (c :: r) && nextCharOk ((c :: r).drop w.length) then
          some ('_' :: '_' :: '_' :: (c :: r).drop w.length)
        else (replaceWordOnce w (isWordChar c) r).map (fun t => c :: t)) from rfl] at h
    by_cases hcond :
        (!prev && ciLeads w (c :: r) && nextCharOk ((c :: r).drop w.length)) = true
    · rw [if_pos hcond] at h
      injection h with hout
      simp only [Bool.and_eq_true, Bool.not_eq_true'] at hcond
      obtain ⟨⟨hprev, hci⟩, hnext⟩ := hcond
      refine ⟨[], (c :: r).take w.length, (c :: r).drop w.length, ?_, ?_, ?_, ?_, ?_, ?_⟩
      · simp [List.take_append_drop]
      · rw [List.length_take]
        exact Nat.min_eq_left (ciLeads_length w (c :: r) hci)
      · rw [← hout]
        simp [marker]
      · intro _
        exact hprev
      · intro d hd
        cases hd
      · intro d hd
        unfold nextCharOk at hnext
        rw [hd] at hnext
        simpa using hnext
    · rw [if_neg hcond] at h
      cases hrec : replaceWordOnce w (isWordChar c) r with
      | none =>
        rw [hrec] at h
        cases h
      | some out' =>
        rw [hrec] at h
        injection h with hout
        obtain ⟨pre, mid, post, hs, hm, ho, hpre0, hprel, hpost⟩ :=
          replaceWordOnce_spec w (isWordChar c) r out' hrec
        refine ⟨c :: pre, mid, post, ?_, hm, ?_, ?_, ?_, hpost⟩
        · rw [show c :: pre ++ mid ++ post = c :: (pre ++ mid ++ post) from rfl, ← hs]
        · rw [← hout, ho]
          rfl
        · intro h0
          cases h0
        · intro d hd
          by_cases hp : pre = []
          · subst hp
            injection hd with hd1
            rw [← hd1]
            exact hpre0 rfl
          · rw [lastChar?_cons c _ hp] at hd
            exact hprel d hd

theorem count_replaceWordOnce (w s out : List Char)
    (h : replaceWordOnce w false s = some out) (h0 : countMarker s = 0) :
    countMarker out = 1 := by
  obtain ⟨pre, mid, post, hs, _, ho, _, hprel, hpost⟩ :=
    replaceWordOnce_spec w false s out h
  have hcount1 := (containsMarker_iff_count s)
  have hcpre : countMarker pre = 0 := by
    rw [countMarker_eq_zero]
    by_contra hx
    rw [Bool.not_eq_false] at hx
    have hcs : containsMarker s = true := by
      rw [hs, List.append_assoc]
      exact hasSubstr_append_left _ _ _ hx
    have := hcount1.mp hcs
    omega
  have hcpost : countMarker post = 0 := by
    rw [countMarker_eq_zero]
    by_contra hx
    rw [Bool.not_eq_false] at hx
    have hcs : containsMarker s = true := by
      rw [hs]
      exact hasSubstr_append_right _ _ _ hx
    have := hcount1.mp hcs
    omega
  have hpostU : post.head? ≠ some '_' := by
    intro hx
    exact absurd (hpost '_' hx) (by decide)
  have hpreU : lastChar? pre ≠ some '_' := by
    intro hx
    exact absurd (hprel '_' hx) (by decide)
  rw [ho, show pre ++ marker ++ post = (pre ++ marker) ++ post from by
    simp [List.append_assoc]]
  rw [count_append_head (pre ++ marker) post hpostU, count_append_marker pre hpreU,
    hcpre, hcpost]

theorem splitSpaces_ne_nil : ∀ (s : List Char), splitSpaces s ≠ []
  | [] => by simp [splitSpaces]
  | c :: r => by
    simp only [splitSpaces]
    by_cases hc : c = ' ' <;> simp [hc]

theorem joinSpaces_cons (t : List Char) (ts : List (List Char)) (h : ts ≠ []) :
    joinSpaces (t :: ts) = t ++ ' ' :: joinSpaces ts := by
  cases ts with
  | nil => exact absurd rfl h
  | cons u us => rfl

theorem joinSpaces_splitSpaces : ∀ (s : List Char), joinSpaces (splitSpaces s) = s
  | [] => rfl
  | c :: r => by
    have ih := joinSpaces_splitSpaces r
    by_cases hc : c = ' '
    · subst hc
      rw [show splitSpaces (' ' :: r) = [] :: splitSpaces r from by simp [splitSpaces]]
      rw [joinSpaces_cons [] _ (splitSpaces_ne_nil r), ih]
      rfl
    · rw [show splitSpaces (c :: r) =
          (c :: (splitSpaces r).headD []) :: (splitSpaces r).tail from by
        simp [splitSpaces, hc]]
      cases hts : splitSpaces r with
      | nil => exact absurd hts (splitSpaces_ne_nil r)
      | cons u us =>
        rw [hts] at ih
        cases us with
        | nil =>
          simp only [List.headD, List.tail]
          simp only [joinSpaces] at ih ⊢
          rw [ih]
        | cons v vs =>
          simp only [List.headD, List.tail]
          rw [joinSpaces_cons _ _ (by simp)]
          rw [joinSpaces_cons _ _ (by simp)] at ih
          rw [← ih]
          rfl

theorem joinSpaces_append : ∀ (A B : List (List Char)), A ≠ [] → B ≠ [] →
    joinSpaces (A ++ B) = joinSpaces A ++ ' ' :: joinSpaces B
  | [], _, hA, _ => absurd rfl hA
  | [t], B, _, hB => by
    rw [show ([t] : List (List Char)) ++ B = t :: B from rfl, joinSpaces_cons t B hB]
    rfl
  | t :: u :: us, B, _, hB => by
    rw [show (t :: u :: us) ++ B = t :: ((u :: us) ++ B) from rfl]
    rw [joinSpaces_cons t _ (by simp), joinSpaces_cons t (u :: us) (by simp),
      joinSpaces_append (u :: us) B (by simp) hB]
    simp

theorem dropLastChar_decomp : ∀ (s : List Char),
    s = [] ∨ ∃ c, s = dropLastChar s ++ [c]
  | [] => Or.inl rfl
  | [x] => Or.inr ⟨x, rfl⟩
  | a :: b :: r => by
    rcases dropLastChar_decomp (b :: r) with h | ⟨c, hc⟩
    · exact absurd h (by simp)
    · refine Or.inr ⟨c, ?_⟩
      rw [show dropLastChar (a :: b :: r) = a :: dropLastChar (b :: r) from rfl]
      rw [List.cons_append, ← hc]

theorem lastChar?_append_single : ∀ (s : List Char) (c : Char),
    lastChar? (s ++ [c]) = some c
  | [], c => rfl
  | [x], c => rfl
  | a :: b :: r, c => by
    rw [show (a :: b :: r) ++ [c] = a :: ((b :: r) ++ [c]) from rfl]
    rw [lastChar?_cons _ _ (by simp), lastChar?_append_single (b :: r) c]

theorem char_AZ_bounds (c : Char) (h : ('A' ≤ c && c ≤ 'Z') = true) :
    65 ≤ c.toNat ∧ c.toNat ≤ 90 := by
  obtain ⟨h1, h2⟩ := Bool.and_eq_true_iff.mp h
  rw [decide_eq_true_eq] at h1 h2
  rw [Char.le_def, UInt32.le_def] at h1 h2
  exact ⟨h1, h2⟩

theorem jsToLower_idem (c : Char) : jsToLower (jsToLower c) = jsToLower c := by
  by_cases h : ('A' ≤ c && c ≤ 'Z') = true
  · obtain ⟨h1, h2⟩ := char_AZ_bounds c h
    have hc := (Char.ofNat_toNat c).symm
    interval_cases hn : c.toNat <;> (rw [hc]; decide)
  · have he : jsToLower c = c := by
      unfold jsToLower
      rw [if_neg h]
    rw [he, he]

theorem isWordChar_jsToLower (c : Char) : isWordChar (jsToLower c) = isWordChar c := by
  by_cases h : ('A' ≤ c && c ≤ 'Z') = true
  · obtain ⟨h1, h2⟩ := char_AZ_bounds c h
    have hc := (Char.ofNat_toNat c).symm
    interval_cases hn : c.toNat <;> (rw [hc]; decide)
  · have he : jsToLower c = c := by
      unfold jsToLower
      rw [if_neg h]
    rw [he]

theorem ciLeads_map_lower (w : List Char) : ∀ (s : List Char),
    ciLeads w (s.map jsToLower) = ciLeads w s := by
  induction w with
  | nil =>
    intro s
    cases s <;> rfl
  | cons a w ih =>
    intro s
    cases s with
    | nil => rfl
    | cons b s2 =>
      simp only [List.map_cons, ciLeads]
      rw [jsToLower_idem, ih s2]

theorem nextCharOk_map (s : List Char) :
    nextCharOk (s.map jsToLower) = nextCharOk s := by
  cases s with
  | nil => rfl
  | cons c r =>
    show (!isWordChar (jsToLower c)) = (!isWordChar c)
    rw [isWordChar_jsToLower]

theorem replaceWordOnce_isSome_map (w : List Char) : ∀ (prev : Bool) (s : List Char),
    (replaceWordOnce w prev (s.map jsToLower)).isSome =
      (replaceWordOnce w prev s).isSome := by
  intro prev s
  induction s generalizing prev with
  | nil => rfl
  | cons c r ih =>
    have hunfold : ∀ (p : Bool) (x : Char) (xs : List Char),
        replaceWordOnce w p (x :: xs) =
          (if !p && ciLeads w (x :: xs) && nextCharOk ((x :: xs).drop w.length) then
            some ('_' :: '_' :: '_' :: (x :: xs).drop w.length)
          else (replaceWordOnce w (isWordChar x) xs).map (fun t => x :: t)) :=
      fun _ _ _ => rfl
    rw [List.map_cons, hunfold, hunfold]
    have hdrop : (jsToLower c :: r.map jsToLower).drop w.length =
        ((c :: r).drop w.length).map jsToLower := by
      rw [show jsToLower c :: r.map jsToLower = (c :: r).map jsToLower from rfl]
      rw [List.map_drop]
    have hcond : (!prev && ciLeads w (jsToLower c :: r.map jsToLower) &&
        nextCharOk ((jsToLower c :: r.map jsToLower).drop w.length)) =
        (!prev && ciLeads w (c :: r) && nextCharOk ((c :: r).drop w.length)) := by
      rw [hdrop, nextCharOk_map]
      rw [show jsToLower c :: r.map jsToLower = (c :: r).map jsToLower from rfl]
      rw [ciLeads_map_lower]
    rw [hcond]
    by_cases hc2 :
        (!prev && ciLeads w (c :: r) && nextCharOk ((c :: r).drop w.length)) = true
    · rw [if_pos hc2, if_pos hc2]
      rfl
    · rw [if_neg hc2, if_neg hc2]
      have hm : ∀ (f : List Char → List Char) (o : Option (List Char)),
          (o.map f).isSome = o.isSome := by
        intro f o
        cases o <;> rfl
      rw [hm, hm, isWordChar_jsToLower]
      exact ih (isWordChar c)

theorem jsStrToLower_eq_map (s : List Char) (h : lowerSafe s = true) :
    jsStrToLower s = s.map jsToLower := by
  induction s with
  | nil => rfl
  | cons c r ih =>
    simp only [lowerSafe, List.all_cons, Bool.and_eq_true] at h
    obtain ⟨hc, hr⟩ := h
    have hcl : jsLowerChar c = [jsToLower c] := by
      simp only [Bool.not_eq_eq_eq_not, Bool.not_true, Bool.or_eq_false_iff,
        decide_eq_false_iff_not] at hc
      unfold jsLowerChar
      rw [if_neg hc.1, if_neg hc.2]
    show (jsLowerChar c :: r.map jsLowerChar).flatten = jsToLower c :: r.map jsToLower
    rw [List.flatten, hcl, ← ih (by simpa [lowerSafe] using hr)]
    rfl

theorem ensureMarker_of_marker (s1 w : List Char) (h : containsMarker s1 = true) :
    ensureMarker s1 w = s1 := by
  unfold ensureMarker
  rw [if_pos h]

theorem count_ensureMarker (s1 w : List Char) (hnm : containsMarker s1 = false)
    (himp : (replaceWordOnce w false (jsStrToLower s1)).isSome = true →
      (replaceWordOnce w false s1).isSome = true) :
    countMarker (ensureMarker s1 w) = 1 := by
  have h0 : countMarker s1 = 0 := (countMarker_eq_zero s1).mpr hnm
  unfold ensureMarker
  rw [if_neg (by rw [hnm]; simp)]
  by_cases htest : (replaceWordOnce w false (jsStrToLower s1)).isSome = true
  · rw [if_pos htest]
    have hsome := himp htest
    cases hrep : replaceWordOnce w false s1 with
    | none =>
      rw [hrep] at hsome
      cases hsome
    | some replaced => exact count_replaceWordOnce w s1 replaced hrep h0
  · rw [if_neg htest]
    simp only []
    by_cases hlen : (splitSpaces s1).length > 3
    · rw [if_pos hlen]
      set toks := splitSpaces s1 with htoks
      set k := toks.length / 2 with hk
      have hs1 : s1 = joinSpaces toks := (joinSpaces_splitSpaces s1).symm
      have hA : toks.take k ≠ [] := by
        rw [← List.length_pos]
        rw [List.length_take]
        omega
      have hB : toks.drop k ≠ [] := by
        rw [← List.length_pos]
        rw [List.length_drop]
        omega
      have hsplit : joinSpaces (insertAtIdx k marker toks) =
          joinSpaces (toks.take k) ++
            ' ' :: (marker ++ ' ' :: joinSpaces (toks.drop k)) := by
        unfold insertAtIdx
        rw [joinSpaces_append (toks.take k) (marker :: toks.drop k) hA (by simp)]
        rw [joinSpaces_cons marker _ hB]
      have hs1' : s1 = joinSpaces (toks.take k) ++ ' ' :: joinSpaces (toks.drop k) := by
        conv_lhs => rw [hs1, ← List.take_append_drop k toks]
        rw [joinSpaces_append (toks.take k) (toks.drop k) hA hB]
      have hcA : countMarker (joinSpaces (toks.take k)) = 0 := by
        rw [countMarker_eq_zero]
        by_contra hx
        rw [Bool.not_eq_false] at hx
        have : containsMarker s1 = true := by
          rw [hs1']
          exact hasSubstr_append_left _ _ _ hx
        rw [this] at hnm
        cases hnm
      have hcB : countMarker (joinSpaces (toks.drop k)) = 0 := by
        rw [countMarker_eq_zero]
        by_contra hx
        rw [Bool.not_eq_false] at hx
        have : containsMarker s1 = true := by
          rw [hs1', show joinSpaces (toks.take k) ++ ' ' :: joinSpaces (toks.drop k) =
            (joinSpaces (toks.take k) ++ [' ']) ++ joinSpaces (toks.drop k) from by simp]
          exact hasSubstr_append_right _ _ _ hx
        rw [this] at hnm
        cases hnm
      rw [hsplit]
      rw [count_append_head _ _ (by simp)]
      rw [countMarker_cons_of ' ' _ (by rintro ⟨h, _⟩; exact absurd h (by decide))]
      rw [show marker ++ ' ' :: joinSpaces (toks.drop k) =
        '_' :: '_' :: '_' :: (' ' :: joinSpaces (toks.drop k)) from rfl]
      rw [countMarker_cons3]
      rw [countMarker_cons_of ' ' _ (by rintro ⟨h, _⟩; exact absurd h (by decide))]
      omega
    · rw [if_neg hlen]
      have hctail : countMarker (' ' :: '_' :: '_' :: '_' :: '.' :: []) = 1 := by decide
      rw [count_append_head _ _ (by simp)]
      rw [hctail]
      have hcdrop : countMarker (dropLastChar s1) = 0 := by
        rcases dropLastChar_decomp s1 with h | ⟨c, hc⟩
        · rw [h]
          rfl
        · rw [countMarker_eq_zero]
          by_contra hx
          rw [Bool.not_eq_false] at hx
          have : containsMarker s1 = true := by
            conv_lhs => rw [hc]
            exact hasSubstr_append_left _ _ _ hx
          rw [this] at hnm
          cases hnm
      omega

theorem finalize_spec (s2 : List Char) :
    countMarker (jsTrim (collapseWS (ensurePunct s2))) = countMarker s2 ∧
    endsPunct (jsTrim (collapseWS (ensurePunct s2))) = true := by
  have hpunct3 : ∃ p, lastChar? (ensurePunct s2) = some p ∧
      (p = '.' ∨ p = '!' ∨ p = '?') := by
    unfold ensurePunct
    split
    · rename_i hp
      unfold endsPunct at hp
      cases hl : lastChar? s2 with
      | none => rw [hl] at hp; cases hp
      | some c =>
        rw [hl] at hp
        refine ⟨c, rfl, ?_⟩
        simpa [or_assoc] using hp
    · exact ⟨'.', lastChar?_append_single s2 '.', Or.inl rfl⟩
  have hcount3 : countMarker (ensurePunct s2) = countMarker s2 := by
    unfold ensurePunct
    split
    · rfl
    · rw [count_append_head s2 ['.'] (by simp)]
      rfl
  obtain ⟨p, hp, hpv⟩ := hpunct3
  have hpws : isWS p = false := by
    rcases hpv with rfl | rfl | rfl <;> rfl
  have hlast2 : lastChar? (collapseWS (ensurePunct s2)) = some p :=
    collapse_last _ p hp hpws
  have htrim : jsTrim (collapseWS (ensurePunct s2)) =
      dropLeadingWS (collapseWS (ensurePunct s2)) :=
    jsTrim_of_last _ p hlast2 hpws
  constructor
  · rw [htrim, count_dropLeadingWS, count_collapse, hcount3]
  · rw [htrim]
    have := lastChar?_dropLeadingWS _ p hlast2 hpws
    unfold endsPunct
    rw [this]
    rcases hpv with rfl | rfl | rfl <;> rfl

theorem extractSentenceL_spec (resp w : List Char) :
    endsPunct (extractSentenceL resp w) = true ∧
    (containsMarker (stripQuotes (jsTrim resp)) = true →
      1 ≤ countMarker (extractSentenceL resp w)) ∧
    (containsMarker (stripQuotes (jsTrim resp)) = false →
      lowerSafe (stripQuotes (jsTrim resp)) = true →
      countMarker (extractSentenceL resp w) = 1) := by
  unfold extractSentenceL
  obtain ⟨hc, hp⟩ := finalize_spec (ensureMarker (stripQuotes (jsTrim resp)) w)
  refine ⟨hp, ?_, ?_⟩
  · intro hm
    rw [hc, ensureMarker_of_marker _ _ hm]
    exact (containsMarker_iff_count _).mp hm
  · intro hm hsafe
    rw [hc]
    refine count_ensureMarker _ _ hm ?_
    intro htest
    rw [jsStrToLower_eq_map _ hsafe, replaceWordOnce_isSome_map] at htest
    exact htest

theorem fallback_spec (w : String) (idx : Nat) :
    countMarker (generateFallbackSentence w idx).data = 1 ∧
    endsPunct (generateFallbackSentence w idx).data = true := by
  have h8 : idx % 8 = 0 ∨ idx % 8 = 1 ∨ idx % 8 = 2 ∨ idx % 8 = 3 ∨ idx % 8 = 4 ∨
      idx % 8 = 5 ∨ idx % 8 = 6 ∨ idx % 8 = 7 := by omega
  unfold generateFallbackSentence
  rcases h8 with h | h | h | h | h | h | h | h <;> rw [h] <;>
    exact ⟨by decide, by decide⟩

theorem endsPunct_ne_nil (s : List Char) (h : endsPunct s = true) : s ≠ [] := by
  intro hnil
  subst hnil
  cases h

theorem lastChar?_mem : ∀ (s : List Char) (c : Char), lastChar? s = some c → c ∈ s
  | [], c, h => by cases h
  | [x], c, h => by
    injection h with h1
    subst h1
    simp
  | a :: b :: r, c, h => by
    rw [lastChar?_cons _ _ (by simp)] at h
    have := lastChar?_mem (b :: r) c h
    simp only [List.mem_cons] at this ⊢
    tauto

theorem extractSentenceL_ne_word (resp w : List Char)
    (hall : w.all isWordChar = true) : extractSentenceL resp w ≠ w := by
  intro heq
  obtain ⟨hp, -, -⟩ := extractSentenceL_spec resp w
  unfold endsPunct at hp
  cases hl : lastChar? (extractSentenceL resp w) with
  | none => rw [hl] at hp; cases hp
  | some p =>
    rw [hl] at hp
    rw [heq] at hl
    have hmem : p ∈ w := lastChar?_mem w p hl
    have hwc : isWordChar p = true := by
      rw [List.all_eq_true] at hall
      exact hall p hmem
    simp only [Bool.or_eq_true, decide_eq_true_eq, or_assoc] at hp
    rcases hp with rfl | rfl | rfl <;> exact absurd hwc (by decide)

theorem string_append_ne_empty (pre rest : String) (hp : pre.length ≠ 0) :
    pre ++ rest ≠ "" := by
  intro h
  have hlen := congrArg String.length h
  rw [String.length_append] at hlen
  rw [show ("" : String).length = 0 from rfl] at hlen
  omega

theorem callDeepSeekAPI_noKey (prompt : String) (o : NetOutcome) :
    callDeepSeekAPI "" prompt o = Except.error "DEEPSEEK_API_KEY is not configured" := by
  unfold callDeepSeekAPI
  rw [if_pos rfl]

theorem callDeepSeekAPI_throwErr (key prompt : String) (hk : key ≠ "") (m : String) :
    callDeepSeekAPI key prompt (NetOutcome.throwErr m) = Except.error m := by
  unfold callDeepSeekAPI
  rw [if_neg hk]

theorem callDeepSeekAPI_throwNonErr (key prompt : String) (hk : key ≠ "") :
    callDeepSeekAPI key prompt NetOutcome.throwNonErr = Except.error "API 調用異常" := by
  unfold callDeepSeekAPI
  rw [if_neg hk]

theorem callDeepSeekAPI_resp (key prompt : String) (hk : key ≠ "") (status : Nat)
    (body : String) (choices : Option (List String)) :
    callDeepSeekAPI key prompt (NetOutcome.resp status body choices) =
      (if ¬(200 ≤ status ∧ status ≤ 299) then
        if status = 401 then Except.error "API Key 無效/過期"
        else if status = 403 then Except.error "API 權限不足"
        else if status = 429 then Except.error "API 調用頻率超限"
        else if status = 500 then Except.error "DeepSeek API 服務器內部錯誤"
        else Except.error ("HTTP " ++ toString status ++ ": " ++ body)
      else
        match choices with
        | none => Except.error "API 響應無有效內容"
        | some [] => Except.error "API 響應無有效內容"
        | some (c :: _) => Except.ok (String.mk (jsTrim c.data))) := by
  unfold callDeepSeekAPI
  rw [if_neg hk]

theorem callDeepSeekAPI_error_ne (apiKey prompt : String) (o : NetOutcome)
    (hwf : ∀ m, o = NetOutcome.throwErr m → m ≠ "") (msg : String)
    (h : callDeepSeekAPI apiKey prompt o = Except.error msg) : msg ≠ "" := by
  by_cases hk : apiKey = ""
  · subst hk
    rw [callDeepSeekAPI_noKey] at h
    injection h with h1
    rw [← h1]
    decide
  · cases o with
    | throwErr m =>
      rw [callDeepSeekAPI_throwErr _ _ hk] at h
      injection h with h1
      rw [← h1]
      exact hwf m rfl
    | throwNonErr =>
      rw [callDeepSeekAPI_throwNonErr _ _ hk] at h
      injection h with h1
      rw [← h1]
      decide
    | resp status body choices =>
      rw [callDeepSeekAPI_resp _ _ hk] at h
      by_cases hok : 200 ≤ status ∧ status ≤ 299
      · rw [if_neg (not_not_intro hok)] at h
        cases choices with
        | none =>
          injection h with h1
          rw [← h1]
          decide
        | some cs =>
          cases cs with
          | nil =>
            injection h with h1
            rw [← h1]
            decide
          | cons c cs2 => cases h
      · rw [if_pos hok] at h
        split_ifs at h with h1 h2 h3 h4
        · injection h with he; rw [← he]; decide
        · injection h with he; rw [← he]; decide
        · injection h with he; rw [← he]; decide
        · injection h with he; rw [← he]; decide
        · injection h with he
          rw [← he]
          rw [show ("HTTP " ++ toString status ++ ": " ++ body) =
            "HTTP " ++ (toString status ++ ": " ++ body) from by
              simp [String.append_assoc]]
          exact string_append_ne_empty "HTTP " _ (by decide)

theorem echo_fields (w d : String) (env : GenEnv) :
    (generateSentenceForWord w d env).word = w ∧
    (generateSentenceForWord w d env).difficulty = d := by
  unfold generateSentenceForWord generateSentenceRun
  by_cases hw : w = ""
  · rw [if_pos hw]
    exact ⟨rfl, rfl⟩
  · rw [if_neg hw]
    cases hapi : callDeepSeekAPI env.apiKey
        (createPrompt w d env.styleIdx env.contextIdx env.variationIdx env.protoRender)
        env.netOutcome with
    | ok resp => simp [hapi]
    | error m => simp [hapi]

/-- A per-call environment with no configured credential. -/
def envNoKey : GenEnv :=
  { apiKey := "", netOutcome := NetOutcome.resp 200 "" (some ["x"]),
    styleIdx := 0, contextIdx := 0, variationIdx := 0, fallbackIdx := 0,
    protoRender := fun _ => "" }

/-- A per-call environment in which the fetch succeeds with HTTP 200 and the
single choice content `raw`. -/
def envOk (raw : String) : GenEnv :=
  { apiKey := "sk-test", netOutcome := NetOutcome.resp 200 "" (some [raw]),
    styleIdx := 0, contextIdx := 0, variationIdx := 0, fallbackIdx := 0,
    protoRender := fun _ => "" }

/-- C1: for every non-empty word and every outcome of the generation chain
(prompt building, API call, normalization — all possible outcomes are ranged
over by the per-call environment, exceptions included), the model of
`generateSentenceForWord` is a total function into `SentenceResult`, so no
exception reaches the caller; and on any failure the result has
`success = false`, `fallback = true`, a non-empty error message (thrown
`Error`s are assumed to carry a non-empty message, as the classified throw
sites of the source all do) and a sentence drawn from the fallback
generator. -/
theorem c1_never_throws_fallback_shape (w d : String) (env : GenEnv)
    (hw : w ≠ "")
    (hwf : ∀ m, env.netOutcome = NetOutcome.throwErr m → m ≠ "") :
    ((generateSentenceForWord w d env).success = true ∧
      (generateSentenceForWord w d env).fallback = false) ∨
    ((generateSentenceForWord w d env).success = false ∧
      (generateSentenceForWord w d env).fallback = true ∧
      (generateSentenceForWord w d env).sentence =
        generateFallbackSentence w env.fallbackIdx ∧
      ∃ m, (generateSentenceForWord w d env).error = some m ∧ m ≠ "") := by
  simp only [generateSentenceForWord, generateSentenceRun]
  rw [if_neg hw]
  cases hapi : callDeepSeekAPI env.apiKey
      (createPrompt w d env.styleIdx env.contextIdx env.variationIdx env.protoRender)
      env.netOutcome with
  | ok resp =>
    exact Or.inl ⟨rfl, rfl⟩
  | error m =>
    refine Or.inr ⟨rfl, rfl, rfl, m, rfl, ?_⟩
    exact callDeepSeekAPI_error_ne _ _ _ hwf m hapi

/-- C1 witness: concrete instance (missing credential forces the failure
path) of `c1_never_throws_fallback_shape`. -/
theorem c1_witness :
    ((generateSentenceForWord "happy" "medium" envNoKey).success = true ∧
      (generateSentenceForWord "happy" "medium" envNoKey).fallback = false) ∨
    ((generateSentenceForWord "happy" "medium" envNoKey).success = false ∧
      (generateSentenceForWord "happy" "medium" envNoKey).fallback = true ∧
      (generateSentenceForWord "happy" "medium" envNoKey).sentence =
        generateFallbackSentence "happy" envNoKey.fallbackIdx ∧
      ∃ m, (generateSentenceForWord "happy" "medium" envNoKey).error = some m ∧
        m ≠ "") :=
  c1_never_throws_fallback_shape "happy" "medium" envNoKey (by decide)
    (fun m hm => by simp [envNoKey] at hm)

/-- C3: for the empty word, `generateSentenceForWord` returns immediately a
result with `success = false`, `fallback = true`, a populated error and a
fallback-generated sentence; the invocation flag is `false`, i.e. neither
`callDeepSeekAPI` nor `fetch` is ever attempted (the result does not depend
on the credential or on the network outcome at all). -/
theorem c3_empty_word_no_network (d : String) (env : GenEnv) :
    generateSentenceRun "" d env =
      ({ success := false,
         word := "",
         sentence := generateFallbackSentence "" env.fallbackIdx,
         difficulty := d,
         fallback := true,
         error := some "單字長度不能少於 1 個字符" }, false) := by
  unfold generateSentenceRun
  rw [if_pos rfl]

/-- C2 counterexample: two failure modes of the "exactly one blank marker"
claim on the generation path.  A raw API text that already contains two
markers is passed through, giving a 2-marker sentence; and for word `"k"`
with raw text `"\u212A"` (KELVIN SIGN) the lowercased copy is `"k"`, so the
case-insensitive test passes, but the replace on the original is a no-op
(the non-`/u` canonicalization cannot match U+212A against `k`), so the
returned successful sentence `"\u212A."` contains no marker at all. -/
theorem c2_counterexample :
    (countMarker (generateSentenceForWord "run" "easy"
        (envOk "You ___ and ___ today.")).sentence.data = 2 ∧
      ¬ countMarker (generateSentenceForWord "run" "easy"
        (envOk "You ___ and ___ today.")).sentence.data = 1) ∧
    ((generateSentenceForWord "k" "easy" (envOk "\u212A")).success = true ∧
      (generateSentenceForWord "k" "easy" (envOk "\u212A")).sentence = "\u212A." ∧
      countMarker (generateSentenceForWord "k" "easy"
        (envOk "\u212A")).sentence.data = 0) := by
  exact ⟨⟨by decide, by decide⟩, by decide, by decide, by decide⟩

/-- C2 (amended): every sentence returned by `generateSentenceForWord`
(target word made of word characters, the domain on which the matcher model
is faithful) ends in `.`, `!` or `?`.  It contains exactly one blank marker
whenever it comes from the fallback pool; on the generation path it contains
at least one marker when the trimmed, quote-stripped raw text already holds
one, and exactly one when that text holds none and none of its code units
lowercases across the ASCII canonicalization barrier (no U+212A, no U+0130 —
all ASCII raw text in particular).  Outside that condition the
test-on-lowercase/replace-on-original split of the source can leave the
sentence marker-less, as the counterexample shows. -/
theorem c2_amended_marker_punct (w d : String) (env : GenEnv)
    (hall : w.data.all isWordChar = true) :
    endsPunct (generateSentenceForWord w d env).sentence.data = true ∧
    ((generateSentenceForWord w d env).fallback = true →
      countMarker (generateSentenceForWord w d env).sentence.data = 1) ∧
    (∀ raw, callDeepSeekAPI env.apiKey
        (createPrompt w d env.styleIdx env.contextIdx env.variationIdx env.protoRender)
        env.netOutcome = Except.ok raw →
      containsMarker (stripQuotes (jsTrim raw.data)) = true →
      1 ≤ countMarker (generateSentenceForWord w d env).sentence.data) ∧
    (∀ raw, callDeepSeekAPI env.apiKey
        (createPrompt w d env.styleIdx env.contextIdx env.variationIdx env.protoRender)
        env.netOutcome = Except.ok raw →
      containsMarker (stripQuotes (jsTrim raw.data)) = false →
      lowerSafe (stripQuotes (jsTrim raw.data)) = true →
      countMarker (generateSentenceForWord w d env).sentence.data = 1) := by
  simp only [generateSentenceForWord, generateSentenceRun]
  by_cases hw : w = ""
  · rw [if_pos hw]
    have hf := fallback_spec w env.fallbackIdx
    exact ⟨hf.2, fun _ => hf.1, fun _ _ _ => hf.1 ▸ Nat.le_refl 1,
      fun _ _ _ _ => hf.1⟩
  · rw [if_neg hw]
    cases hapi : callDeepSeekAPI env.apiKey
        (createPrompt w d env.styleIdx env.contextIdx env.variationIdx env.protoRender)
        env.netOutcome with
    | ok resp =>
      obtain ⟨hp, hge, hone⟩ := extractSentenceL_spec resp.data w.data
      refine ⟨hp, ?_, ?_, ?_⟩
      · intro hfb
        cases hfb
      · intro raw hr hm
        injection hr with hr1
        subst hr1
        exact hge hm
      · intro raw hr hm hsafe
        injection hr with hr1
        subst hr1
        exact hone hm hsafe
    | error m =>
      have hf := fallback_spec w env.fallbackIdx
      refine ⟨hf.2, fun _ => hf.1, ?_, ?_⟩
      · intro raw hr
        cases hr
      · intro raw hr
        cases hr

/-- C2 witness: concrete instance of `c2_amended_marker_punct` on a
successful generation. -/
theorem c2_witness :
    endsPunct (generateSentenceForWord "happy" "medium"
      (envOk "I feel happy today")).sentence.data = true ∧
    ((generateSentenceForWord "happy" "medium"
        (envOk "I feel happy today")).fallback = true →
      countMarker (generateSentenceForWord "happy" "medium"
        (envOk "I feel happy today")).sentence.data = 1) ∧
    (∀ raw, callDeepSeekAPI (envOk "I feel happy today").apiKey
        (createPrompt "happy" "medium" (envOk "I feel happy today").styleIdx
          (envOk "I feel happy today").contextIdx
          (envOk "I feel happy today").variationIdx
          (envOk "I feel happy today").protoRender)
        (envOk "I feel happy today").netOutcome = Except.ok raw →
      containsMarker (stripQuotes (jsTrim raw.data)) = true →
      1 ≤ countMarker (generateSentenceForWord "happy" "medium"
        (envOk "I feel happy today")).sentence.data) ∧
    (∀ raw, callDeepSeekAPI (envOk "I feel happy today").apiKey
        (createPrompt "happy" "medium" (envOk "I feel happy today").styleIdx
          (envOk "I feel happy today").contextIdx
          (envOk "I feel happy today").variationIdx
          (envOk "I feel happy today").protoRender)
        (envOk "I feel happy today").netOutcome = Except.ok raw →
      containsMarker (stripQuotes (jsTrim raw.data)) = false →
      lowerSafe (stripQuotes (jsTrim raw.data)) = true →
      countMarker (generateSentenceForWord "happy" "medium"
        (envOk "I feel happy today")).sentence.data = 1) :=
  c2_amended_marker_punct "happy" "medium" (envOk "I feel happy today") (by decide)

/-- C4 (code-bug evidence): the escape
`word.replace(/[.*+?^${}()|[\\]\\\\]/g, '\\$&')` of `extractSentence` is
inert on ordinary metacharacter words — its character class is terminated
early, so it only rewrites the 4-character sequences class-char `\` `\` `]`.
`"c++"` and `"a.b"` pass through unescaped (for `"c++"` the resulting
pattern `\bc++\b` is not even a valid regular expression; for `"a.b"` the
unescaped `.` matches any character), while the escape the spec describes
would produce `"c\+\+"`. -/
theorem c4_escape_broken :
    escapeWordForRegex "c++".data = "c++".data ∧
    escapeWordForRegex "a.b".data = "a.b".data ∧
    properEscapeForRegex "c++".data = "c\\+\\+".data ∧
    escapeWordForRegex ['.', '\\', '\\', ']'] = ['\\', '.', '\\', '\\', ']'] :=
  ⟨by decide, by decide, by decide, by decide⟩

/-- C5: `callDeepSeekAPI` fails on every non-success outcome with the
classified reason: a missing credential fails identically for every network
outcome (hence before any network attempt); 401, 403, 429 and 500 map to
their dedicated messages; any other non-2xx status maps to the generic
HTTP failure carrying the status and the best-effort error body; a 2xx
response with a missing or empty choice list fails with the no-valid-content
message; otherwise the trimmed first choice content is returned. -/
theorem c5_classification (prompt : String) :
    (∀ o o', callDeepSeekAPI "" prompt o = callDeepSeekAPI "" prompt o') ∧
    (∀ o, callDeepSeekAPI "" prompt o =
      Except.error "DEEPSEEK_API_KEY is not configured") ∧
    (∀ key, key ≠ "" →
      (∀ body ch, callDeepSeekAPI key prompt (NetOutcome.resp 401 body ch) =
        Except.error "API Key 無效/過期") ∧
      (∀ body ch, callDeepSeekAPI key prompt (NetOutcome.resp 403 body ch) =
        Except.error "API 權限不足") ∧
      (∀ body ch, callDeepSeekAPI key prompt (NetOutcome.resp 429 body ch) =
        Except.error "API 調用頻率超限") ∧
      (∀ body ch, callDeepSeekAPI key prompt (NetOutcome.resp 500 body ch) =
        Except.error "DeepSeek API 服務器內部錯誤") ∧
      (∀ st body ch, ¬(200 ≤ st ∧ st ≤ 299) → st ≠ 401 → st ≠ 403 → st ≠ 429 →
        st ≠ 500 →
        callDeepSeekAPI key prompt (NetOutcome.resp st body ch) =
          Except.error ("HTTP " ++ toString st ++ ": " ++ body)) ∧
      (∀ st body, 200 ≤ st → st ≤ 299 →
        callDeepSeekAPI key prompt (NetOutcome.resp st body none) =
          Except.error "API 響應無有效內容" ∧
        callDeepSeekAPI key prompt (NetOutcome.resp st body (some [])) =
          Except.error "API 響應無有效內容") ∧
      (∀ st body c cs, 200 ≤ st → st ≤ 299 →
        callDeepSeekAPI key prompt (NetOutcome.resp st body (some (c :: cs))) =
          Except.ok (String.mk (jsTrim c.data)))) := by
  refine ⟨?_, ?_, ?_⟩
  · intro o o'
    rw [callDeepSeekAPI_noKey, callDeepSeekAPI_noKey]
  · intro o
    exact callDeepSeekAPI_noKey prompt o
  · intro key hk
    refine ⟨?_, ?_, ?_, ?_, ?_, ?_, ?_⟩
    · intro body ch
      rw [callDeepSeekAPI_resp _ _ hk]
      rw [if_pos (by omega), if_pos rfl]
    · intro body ch
      rw [callDeepSeekAPI_resp _ _ hk]
      rw [if_pos (by omega), if_neg (by omega), if_pos rfl]
    · intro body ch
      rw [callDeepSeekAPI_resp _ _ hk]
      rw [if_pos (by omega), if_neg (by omega), if_neg (by omega), if_pos rfl]
    · intro body ch
      rw [callDeepSeekAPI_resp _ _ hk]
      rw [if_pos (by omega), if_neg (by omega), if_neg (by omega),
        if_neg (by omega), if_pos rfl]
    · intro st body ch hnok h401 h403 h429 h500
      rw [callDeepSeekAPI_resp _ _ hk]
      rw [if_pos hnok, if_neg h401, if_neg h403, if_neg h429, if_neg h500]
    · intro st body hlo hhi
      constructor
      · rw [callDeepSeekAPI_resp _ _ hk]
        rw [if_neg (not_not_intro ⟨hlo, hhi⟩)]
      · rw [callDeepSeekAPI_resp _ _ hk]
        rw [if_neg (not_not_intro ⟨hlo, hhi⟩)]
    · intro st body c cs hlo hhi
      rw [callDeepSeekAPI_resp _ _ hk]
      rw [if_neg (not_not_intro ⟨hlo, hhi⟩)]

/-- C5 witness: concrete instances of every classification branch of
`c5_classification`. -/
theorem c5_witness :
    callDeepSeekAPI "" "p" (NetOutcome.resp 200 "" (some ["x"])) =
      Except.error "DEEPSEEK_API_KEY is not configured" ∧
    callDeepSeekAPI "sk-test" "p" (NetOutcome.resp 401 "body" none) =
      Except.error "API Key 無效/過期" ∧
    callDeepSeekAPI "sk-test" "p" (NetOutcome.resp 403 "body" none) =
      Except.error "API 權限不足" ∧
    callDeepSeekAPI "sk-test" "p" (NetOutcome.resp 429 "body" none) =
      Except.error "API 調用頻率超限" ∧
    callDeepSeekAPI "sk-test" "p" (NetOutcome.resp 500 "body" none) =
      Except.error "DeepSeek API 服務器內部錯誤" ∧
    callDeepSeekAPI "sk-test" "p" (NetOutcome.resp 404 "body" none) =
      Except.error ("HTTP " ++ toString 404 ++ ": " ++ "body") ∧
    callDeepSeekAPI "sk-test" "p" (NetOutcome.resp 200 "" none) =
      Except.error "API 響應無有效內容" ∧
    callDeepSeekAPI "sk-test" "p" (NetOutcome.resp 204 "" (some [])) =
      Except.error "API 響應無有效內容" ∧
    callDeepSeekAPI "sk-test" "p" (NetOutcome.resp 200 "" (some [" hi there "])) =
      Except.ok (String.mk (jsTrim " hi there ".data)) := by
  obtain ⟨hno, hcfg, hcls⟩ := c5_classification "p"
  obtain ⟨h401, h403, h429, h500, hgen, hempty, hok⟩ := hcls "sk-test" (by decide)
  exact ⟨hcfg _, h401 _ _, h403 _ _, h429 _ _, h500 _ _,
    hgen 404 "body" none (by omega) (by omega) (by omega) (by omega) (by omega),
    (hempty 200 "" (by omega) (by omega)).1,
    (hempty 204 "" (by omega) (by omega)).2,
    hok 200 "" " hi there " [] (by omega) (by omega)⟩

/-- C6 counterexample: two failures of the output contract.  When the target
word occurs twice, only the first whole-word occurrence is replaced, so the
word still occurs in the produced sentence — "single target word removed"
does not hold.  And a word that already contains the blank marker and ends
in terminal punctuation is returned verbatim: `extractSentence "___." "___."`
is `"___."`, equal to the raw word alone. -/
theorem c6_counterexample :
    (extractSentence "happy happy" "happy" = "___ happy." ∧
      hasSubstr "happy".data (extractSentence "happy happy" "happy").data = true) ∧
    extractSentence "___." "___." = "___." :=
  ⟨⟨by decide, by decide⟩, by decide⟩

/-- C6 (amended): for every raw text and word, the sentence produced by
`extractSentence` is never empty, and it differs from the word alone
whenever the word does not end in `.`, `!` or `?` (every word made of word
characters in particular) — because the produced sentence always ends in
terminal punctuation.  The target word is however only replaced at its first
whole-word occurrence, and only when the raw text does not already contain a
blank marker, so it may still occur in the sentence; and a word that itself
ends in terminal punctuation can be returned verbatim. -/
theorem c6_amended_nonempty_ne_word (resp w : String)
    (hw : endsPunct w.data = false) :
    (extractSentence resp w).data ≠ [] ∧ extractSentence resp w ≠ w := by
  have hp := (extractSentenceL_spec resp.data w.data).1
  constructor
  · exact endsPunct_ne_nil _ hp
  · intro heq
    have hd : extractSentenceL resp.data w.data = w.data := congrArg String.data heq
    rw [hd] at hp
    rw [hp] at hw
    cases hw

/-- C6 witness: concrete instance of `c6_amended_nonempty_ne_word`. -/
theorem c6_witness :
    (extractSentence "I feel happy today" "happy").data ≠ [] ∧
    extractSentence "I feel happy today" "happy" ≠ "happy" :=
  c6_amended_nonempty_ne_word "I feel happy today" "happy" (by decide)

/-- C7: `generateBatch` returns `success = true` with exactly one result per
input word; the result at position `i` is an independent
`generateSentenceForWord` on the word at position `i` with that task's own
environment, so one word's failure never affects another's outcome (results
at equal positions agree whenever the environments at that position agree);
the order of results is index-aligned with the input; and the empty input
list yields `{success := true, results := []}`. -/
theorem c7_generateBatch_shape :
    (∀ d (envs : Nat → GenEnv),
      generateBatch [] d envs = { success := true, results := [] }) ∧
    (∀ d (envs : Nat → GenEnv) (words : List String),
      (generateBatch words d envs).success = true ∧
      (generateBatch words d envs).results.length = words.length) ∧
    (∀ d (envs : Nat → GenEnv) (words : List String) (i : Nat)
      (h : i < words.length)
      (h' : i < (generateBatch words d envs).results.length),
      (generateBatch words d envs).results.get ⟨i, h'⟩ =
        generateSentenceForWord (words.get ⟨i, h⟩) d (envs i)) ∧
    (∀ d (envs envs' : Nat → GenEnv) (words : List String) (i : Nat)
      (h1 : i < (generateBatch words d envs).results.length)
      (h2 : i < (generateBatch words d envs').results.length),
      envs i = envs' i →
      (generateBatch words d envs).results.get ⟨i, h1⟩ =
        (generateBatch words d envs').results.get ⟨i, h2⟩) := by
  have hlen : ∀ d (envs : Nat → GenEnv) (words : List String),
      (generateBatch words d envs).results.length = words.length := by
    intro d envs words
    simp [generateBatch]
  have hget : ∀ d (envs : Nat → GenEnv) (words : List String) (i : Nat)
      (h : i < words.length)
      (h' : i < (generateBatch words d envs).results.length),
      (generateBatch words d envs).results.get ⟨i, h'⟩ =
        generateSentenceForWord (words.get ⟨i, h⟩) d (envs i) := by
    intro d envs words i h h'
    exact List.get_mapIdx words (fun i w => generateSentenceForWord w d (envs i)) i h
  refine ⟨?_, fun d envs words => ⟨rfl, hlen d envs words⟩, hget, ?_⟩
  · intro d envs
    rfl
  · intro d envs envs' words i h1 h2 henv
    have h : i < words.length := by
      rw [← hlen d envs words]
      exact h1
    rw [hget d envs words i h h1, hget d envs' words i h h2, henv]

/-- C7 witness: concrete instances of `c7_generateBatch_shape`. -/
theorem c7_witness :
    generateBatch [] "medium" (fun _ => envNoKey) =
      { success := true, results := [] } ∧
    (generateBatch ["apple", "book"] "medium" (fun _ => envNoKey)).results.length
      = 2 ∧
    (generateBatch ["apple", "book"] "medium" (fun _ => envNoKey)).results.get
        ⟨1, by decide⟩ =
      generateSentenceForWord "book" "medium" envNoKey := by
  refine ⟨c7_generateBatch_shape.1 "medium" (fun _ => envNoKey), ?_, ?_⟩
  · have h := (c7_generateBatch_shape.2.1 "medium" (fun _ => envNoKey)
      ["apple", "book"]).2
    simpa using h
  · exact c7_generateBatch_shape.2.2.1 "medium" (fun _ => envNoKey)
      ["apple", "book"] 1 (by decide) (by decide)

/-- C8: for every input word, difficulty and environment (hence on the
generation-success branch, the caught-failure branch and the empty-word
validation branch alike), the returned result echoes the input word in
`word` and the requested difficulty in `difficulty`. -/
theorem c8_word_difficulty_echo (w d : String) (env : GenEnv) :
    (generateSentenceForWord w d env).word = w ∧
    (generateSentenceForWord w d env).difficulty = d :=
  echo_fields w d env

/-- C9 counterexample: the difficulty lookup walks the prototype chain, so
for the key `"toString"` it yields the truthy inherited
`Object.prototype.toString` and the `|| medium` fallback does not fire: with
the V8 rendering of built-in functions, the prompt built for `"toString"`
differs from the medium prompt — `createPrompt` does not fall back to the
medium instruction for every unrecognized difficulty string. -/
theorem c9_counterexample :
    difficultyInstructions "toString" = PropLookup.inherited ∧
    createPrompt "happy" "toString" 0 0 0
        (fun n => "function " ++ n ++ "() \x7b [native code] \x7d") ≠
      createPrompt "happy" "medium" 0 0 0
        (fun n => "function " ++ n ++ "() \x7b [native code] \x7d") :=
  ⟨by decide, by decide⟩

/-- C9 (amended): for every difficulty string outside easy/medium/hard that
is not the name of an inherited `Object.prototype` member,
`generateSentenceForWord` does not fail (the model is total): the lookup
misses, `createPrompt` silently builds the same prompt as for `"medium"`,
yet the returned result echoes the unrecognized difficulty string verbatim
rather than the coerced `"medium"`.  (For inherited names such as
`"toString"` the lookup returns the truthy inherited member and the medium
fallback does not fire, as the counterexample shows; the difficulty field is
still echoed verbatim for every string.) -/
theorem c9_unknown_difficulty (d : String)
    (h1 : d ≠ "easy") (h2 : d ≠ "medium") (h3 : d ≠ "hard")
    (h4 : ¬ d ∈ objectPrototypeProps) :
    difficultyInstructions d = PropLookup.absent ∧
    (∀ w si ci vi f, createPrompt w d si ci vi f = createPrompt w "medium" si ci vi f) ∧
    (∀ w env, (generateSentenceForWord w d env).difficulty = d) := by
  have habsent : difficultyInstructions d = PropLookup.absent := by
    unfold difficultyInstructions
    rw [if_neg h1, if_neg h2, if_neg h3, if_neg h4]
  refine ⟨habsent, ?_, ?_⟩
  · intro w si ci vi f
    unfold createPrompt
    rw [habsent, show difficultyInstructions "medium" =
      PropLookup.ownString "使用中等難度的詞彙和常見句型，句子邏輯清晰" from by
        unfold difficultyInstructions
        rw [if_neg (by decide), if_pos rfl]]
  · intro w env
    exact (echo_fields w d env).2

/-- C9 witness: concrete instance of `c9_unknown_difficulty` at the
unrecognized, non-inherited difficulty string `"EASY"`. -/
theorem c9_witness :
    difficultyInstructions "EASY" = PropLookup.absent ∧
    (∀ w si ci vi f,
      createPrompt w "EASY" si ci vi f = createPrompt w "medium" si ci vi f) ∧
    (∀ w env, (generateSentenceForWord w "EASY" env).difficulty = "EASY") :=
  c9_unknown_difficulty "EASY" (by decide) (by decide) (by decide) (by decide)

/-- C10: `extractSentence` is deterministic — its model is a pure function
of the raw text and the word alone (unlike `createPrompt` and
`generateFallbackSentence`, whose models take explicit randomness indices),
so two invocations on equal arguments return equal sentences. -/
theorem c10_extractSentence_deterministic (r1 w1 r2 w2 : String)
    (hr : r1 = r2) (hw : w1 = w2) :
    extractSentence r1 w1 = extractSentence r2 w2 := by
  rw [hr, hw]

/-- C10 witness: concrete instance of `c10_extractSentence_deterministic`. -/
theorem c10_witness :
    extractSentence "I code daily" "code" = extractSentence "I code daily" "code" :=
  c10_extractSentence_deterministic "I code daily" "code" "I code daily" "code"
    rfl rfl

end WordFill
